import Mathlib

/-!
Verification of the peejay code-point-run generator (`src/cprun/parse.py`,
with the general-category decoding table from `src/cprun/unicode_data.py`).

The Python program compiles the Unicode code point space into an ordered list
of fixed-width run records.  This file gives a shallow embedding of the parts
of the program the claims concern: the category enumerations and lookup
tables, the override patch (`patch_special_code_points`), the code point
sequencer (`all_code_points`), and the run encoder (`CRAState` and
`code_run_array`).  Python dictionaries become functions into `Option`;
`assert` statements and `KeyError` become `Except` error results; the
generator becomes a list.
-/

deriving instance DecidableEq for Except

namespace Peejay

/-- A Unicode code point: the source's `CodePoint = NewType('CodePoint', int)`
is a transparent alias of `int`, and the program only ever uses non-negative
values, so plain `Nat` stands for it throughout this file. -/
abbrev CodePoint := Nat

/-- `MAX_CODE_POINT = 0x10FFFF` from `unicode_data.py`. -/
def MAX_CODE_POINT : Nat := 0x10FFFF

/-- `CODE_POINT_BITS = 21` from `cprun/parse.py`. -/
def CODE_POINT_BITS : Nat := 21

/-- `RUN_LENGTH_BITS = 9` from `cprun/parse.py`. -/
def RUN_LENGTH_BITS : Nat := 9

/-- `MAX_RUN_LENGTH = pow(2, RUN_LENGTH_BITS) - 1 = 511`. -/
def MAX_RUN_LENGTH : Nat := 2 ^ RUN_LENGTH_BITS - 1

/-- `RULE_BITS = 2` from `cprun/parse.py`. -/
def RULE_BITS : Nat := 2

/-- `MAX_RULE = pow(2, RULE_BITS) - 1 = 3`. -/
def MAX_RULE : Nat := 2 ^ RULE_BITS - 1

/-- The Unicode general categories (the `GeneralCategory` enumeration of
`unicode_data.py`, thirty values). -/
inductive GeneralCategory where
  | Uppercase_Letter
  | Lowercase_Letter
  | Titlecase_Letter
  | Modifier_Letter
  | Other_Letter
  | Nonspacing_Mark
  | Spacing_Mark
  | Enclosing_Mark
  | Decimal_Number
  | Letter_Number
  | Other_Number
  | Connector_Punctuation
  | Dash_Punctuation
  | Open_Punctuation
  | Close_Punctuation
  | Initial_Punctuation
  | Final_Punctuation
  | Other_Punctuation
  | Math_Symbol
  | Currency_Symbol
  | Modifier_Symbol
  | Other_Symbol
  | Space_Separator
  | Line_Separator
  | Paragraph_Separator
  | Control
  | Format
  | Surrogate
  | Private_Use
  | Unassigned
deriving DecidableEq

/-- The `GrammarRule` enumeration of `cprun/parse.py`:
`whitespace = 0`, `identifier_start = 1`, `identifier_part = 2`. -/
inductive GrammarRule where
  | whitespace
  | identifier_start
  | identifier_part
deriving DecidableEq

/-- The numeric value of each `GrammarRule` enumerator, exactly as assigned
in the Python `Enum`. -/
def GrammarRule.value : GrammarRule → Nat
  | .whitespace => 0
  | .identifier_start => 1
  | .identifier_part => 2

/-- The dictionary `GENERAL_CATEGORY_ABBR_TO_ENUM` of `unicode_data.py`,
read through `.get`-style total lookup: abbreviation string to category.
Note that the source maps the abbreviation `'Lo'` to `Other_Number`. -/
def GENERAL_CATEGORY_ABBR_TO_ENUM : String → Option GeneralCategory
  | "Lu" => some .Uppercase_Letter
  | "Ll" => some .Lowercase_Letter
  | "Lt" => some .Titlecase_Letter
  | "Lm" => some .Modifier_Letter
  | "Lo" => some .Other_Number
  | "Mn" => some .Nonspacing_Mark
  | "Mc" => some .Spacing_Mark
  | "Me" => some .Enclosing_Mark
  | "Nd" => some .Decimal_Number
  | "Nl" => some .Letter_Number
  | "No" => some .Other_Number
  | "Pc" => some .Connector_Punctuation
  | "Pd" => some .Dash_Punctuation
  | "Ps" => some .Open_Punctuation
  | "Pe" => some .Close_Punctuation
  | "Pi" => some .Initial_Punctuation
  | "Pf" => some .Final_Punctuation
  | "Po" => some .Other_Punctuation
  | "Sm" => some .Math_Symbol
  | "Sc" => some .Currency_Symbol
  | "Sk" => some .Modifier_Symbol
  | "So" => some .Other_Symbol
  | "Zs" => some .Space_Separator
  | "Zl" => some .Line_Separator
  | "Zp" => some .Paragraph_Separator
  | "Cc" => some .Control
  | "Cf" => some .Format
  | "Cs" => some .Surrogate
  | "Co" => some .Private_Use
  | "Cn" => some .Unassigned
  | _ => none

/-- The dictionary `CATEGORY_TO_GRAMMAR_RULE` of `cprun/parse.py`, accessed
with `.get` (absent keys give `None`). -/
def CATEGORY_TO_GRAMMAR_RULE : GeneralCategory → Option GrammarRule
  | .Spacing_Mark => some .identifier_part
  | .Connector_Punctuation => some .identifier_part
  | .Decimal_Number => some .identifier_part
  | .Letter_Number => some .identifier_start
  | .Lowercase_Letter => some .identifier_start
  | .Modifier_Letter => some .identifier_start
  | .Nonspacing_Mark => some .identifier_part
  | .Space_Separator => some .whitespace
  | .Other_Letter => some .identifier_start
  | .Titlecase_Letter => some .identifier_start
  | .Uppercase_Letter => some .identifier_start
  | _ => none

/-- The per-code-point record of the Unicode database dictionary
(`CodePointValueDict`).  Only the `Name` and `General_Category` entries are
ever read by the embedded functions; the remaining entries of the Python
`TypedDict` (`Bidi_Class`, `Decomposition`, numeric data, case mappings) are
never consulted by the code under verification and are omitted. -/
structure CodePointValueDict where
  Name : String
  General_Category : GeneralCategory
deriving DecidableEq

/-- `DbDict`: the Unicode database dictionary, as a total function into
`Option` (`db.get(cp)` is `db cp`; a missing key is `none`). -/
def DbDict := Nat → Option CodePointValueDict

/-- The body of the `all_code_points` generator: the `while` loop counting
`code_point` up from its argument while `code_point <= MAX_CODE_POINT`. -/
def all_code_points_from (code_point : Nat) : List Nat :=
  if _h : code_point ≤ MAX_CODE_POINT then
    code_point :: all_code_points_from (code_point + 1)
  else
    []
termination_by MAX_CODE_POINT + 1 - code_point
decreasing_by omega

/-- `all_code_points()` of `cprun/parse.py`: every valid Unicode code point
in sequence, starting from zero. -/
def all_code_points : List Nat := all_code_points_from 0

theorem all_code_points_from_eq_range' (c : Nat) :
    all_code_points_from c = List.range' c (MAX_CODE_POINT + 1 - c) := by
  generalize hn : MAX_CODE_POINT + 1 - c = n
  induction n generalizing c with
  | zero =>
    rw [all_code_points_from]
    rw [dif_neg (by omega)]
    rfl
  | succ n ih =>
    rw [all_code_points_from]
    rw [dif_pos (by omega)]
    rw [List.range'_succ]
    rw [ih (c + 1) (by omega)]

/-- Claim C8: the code point sequencer `all_code_points` yields exactly the
integers from 0 through 0x10FFFF inclusive, in strictly ascending order,
with no gaps and no repeats, and terminates (it is a finite list, and as a
pure value every traversal reproduces the same sequence). -/
theorem c8_all_code_points_range :
    all_code_points = List.range (MAX_CODE_POINT + 1) ∧
    all_code_points.length = MAX_CODE_POINT + 1 ∧
    List.Pairwise (· < ·) all_code_points ∧
    all_code_points.Nodup ∧
    (∀ i : Fin all_code_points.length, all_code_points.get i = i.val) := by
  have h : all_code_points = List.range (MAX_CODE_POINT + 1) := by
    rw [all_code_points, all_code_points_from_eq_range', List.range_eq_range',
      Nat.sub_zero]
  refine ⟨h, ?_, ?_, ?_, ?_⟩
  · rw [h, List.length_range]
  · rw [h]; exact List.pairwise_lt_range _
  · rw [h]; exact List.nodup_range _
  · intro i
    have hi := i.isLt
    simp only [h, List.get_eq_getElem, List.getElem_range]

/-- Modelled from the spec: the single-low-bit test that the downstream
lexer (not under `src/`) is said to use to recognise `identifier_part`:
a rule code `v` passes when it has a bit in common with
`identifier_part`'s encoding.  The encoding itself (`GrammarRule.value`)
is taken from the source. -/
def tests_identifier_part (v : Nat) : Bool :=
  v &&& GrammarRule.identifier_part.value != 0

/-- Claim C3, counterexample: `identifier_start`'s encoding (1) does NOT test
true under the `identifier_part` mask (2): the two bit patterns are disjoint,
so `identifier_part` is not a bit superset of `identifier_start`. -/
theorem c3_subset_bit_counterexample :
    tests_identifier_part GrammarRule.identifier_start.value = false ∧
    GrammarRule.identifier_start.value &&& GrammarRule.identifier_part.value = 0 ∧
    GrammarRule.identifier_start.value = 1 ∧
    GrammarRule.identifier_part.value = 2 := by
  decide

/-- Claim C3, amended: the `identifier_part` single-bit mask test recognises
exactly the rule `identifier_part`; in particular `identifier_start` (encoded
1, sharing no bits with `identifier_part`'s 2) tests false, so the encoding
carries no subset-bit relationship between the two identifier rules. -/
theorem c3_mask_test_exact :
    ∀ r : GrammarRule,
      (tests_identifier_part r.value = true ↔ r = GrammarRule.identifier_part) := by
  intro r
  cases r <;> decide

/-- Claim C4: the general-category decoding of the abbreviation `'Lo'`.  The
source (`unicode_data.py`, `GENERAL_CATEGORY_ABBR_TO_ENUM`) maps `'Lo'` to
`Other_Number` — not `Other_Letter` — and `CATEGORY_TO_GRAMMAR_RULE` has no
entry for `Other_Number`, so a code point whose row carries `'Lo'` (and which
is not overridden) receives no rule at all instead of `identifier_start`.
Had `'Lo'` decoded to `Other_Letter`, as the module's own docstring table
states, the rule would have been `identifier_start`. -/
theorem c4_lo_decodes_to_other_number :
    GENERAL_CATEGORY_ABBR_TO_ENUM "Lo" = some GeneralCategory.Other_Number ∧
    CATEGORY_TO_GRAMMAR_RULE GeneralCategory.Other_Number = none ∧
    (GENERAL_CATEGORY_ABBR_TO_ENUM "Lo").bind CATEGORY_TO_GRAMMAR_RULE ≠
      some GrammarRule.identifier_start ∧
    CATEGORY_TO_GRAMMAR_RULE GeneralCategory.Other_Letter =
      some GrammarRule.identifier_start := by
  decide

/-- An output row (`OutputRow` of `cprun/parse.py`): one run record with a
start code point, a length and a rule.  The constructor's `assert`
statements are modelled inside `CRAState.end_run`, the only place the
program constructs one. -/
structure OutputRow where
  code_point : Nat
  length : Nat
  category : GrammarRule
deriving DecidableEq

/-- The encoder state (`CRAState.__init__`): the first code point of the
run in progress, its current length, the longest length ever reached by
`extend_run`, and the rule of the run in progress (`None` when the current
stretch has no rule). -/
structure CRAState where
  first : Nat
  length : Nat
  max_length : Nat
  cat : Option GrammarRule
deriving DecidableEq

/-- `CRAState()` freshly constructed. -/
def CRAState.init : CRAState :=
  { first := 0, length := 0, max_length := 0, cat := none }

/-- `CRAState.new_run`: start a new potential run at `code_point` with rule
`mc`; the length is `int(mc is not None)`. -/
def CRAState.new_run (s : CRAState) (code_point : Nat)
    (mc : Option GrammarRule) : CRAState :=
  { s with
    first := code_point
    cat := mc
    length := if mc.isSome then 1 else 0 }

/-- `CRAState.extend_run`: extend the current run when `mc` equals the open
rule and the cap check passes.  The Python method mutates the state and
returns a `bool`; here it returns the flag with the updated state.  Note the
cap check `self.__length > MAX_RUN_LENGTH` is evaluated before the
increment. -/
def CRAState.extend_run (s : CRAState) (mc : Option GrammarRule) :
    Bool × CRAState :=
  match s.cat with
  | some c =>
    if mc = some c then
      if s.length > MAX_RUN_LENGTH then
        (false, s)
      else
        (true, { s with
                 length := s.length + 1
                 max_length := max s.max_length (s.length + 1) })
    else
      (false, s)
  | none => (false, s)

/-- `CRAState.end_run`: append a run record for the run in progress (when it
has a rule and a positive length).  The Python `assert` statements — both
`end_run`'s own and those of the `OutputRow` constructor it invokes — are
modelled as `Except.error` results. -/
def CRAState.end_run (s : CRAState) (result : List OutputRow) :
    Except String (List OutputRow) :=
  match s.cat with
  | some c =>
    if s.length > 0 then
      if s.first ≤ MAX_CODE_POINT then
        if s.length ≤ MAX_RUN_LENGTH then
          if c.value ≤ MAX_RULE then
            if s.first < 2 ^ CODE_POINT_BITS ∧ s.length < 2 ^ RUN_LENGTH_BITS ∧
                c.value < 2 ^ RULE_BITS then
              .ok (result ++
                [{ code_point := s.first, length := s.length, category := c }])
            else
              .error "OutputRow: bit-width assertion failed"
          else
            .error "end_run: assertion cat.value <= MAX_RULE failed"
        else
          .error "end_run: assertion length <= MAX_RUN_LENGTH failed"
      else
        .error "end_run: assertion first <= MAX_CODE_POINT failed"
    else
      .ok result
  | none => .ok result

/-- `CRAState.max_run`: the length of the longest contiguous run that has
been encountered (through `extend_run`). -/
def CRAState.max_run (s : CRAState) : Nat := s.max_length

/-- The `for` loop of `code_run_array`, over the remaining code points.  For
each code point: look it up in the database; when present, classify it
through `CATEGORY_TO_GRAMMAR_RULE.get` and try `extend_run` (`continue` on
success); otherwise close the current run with `end_run` and start a new one
with `new_run`.  When the sequence is exhausted, close the final run.  The
final state is returned alongside the accumulated rows. -/
def code_run_array_loop (db : DbDict) :
    List Nat → CRAState → List OutputRow →
    Except String (CRAState × List OutputRow)
  | [], state, code_runs =>
    match state.end_run code_runs with
    | .error e => .error e
    | .ok code_runs2 => .ok (state, code_runs2)
  | code_point :: rest, state, code_runs =>
    match db code_point with
    | some v =>
      let mc := CATEGORY_TO_GRAMMAR_RULE v.General_Category
      match state.extend_run mc with
      | (true, state2) => code_run_array_loop db rest state2 code_runs
      | (false, state2) =>
        match state2.end_run code_runs with
        | .error e => .error e
        | .ok code_runs2 =>
          code_run_array_loop db rest (state2.new_run code_point mc) code_runs2
    | none =>
      match state.end_run code_runs with
      | .error e => .error e
      | .ok code_runs2 =>
        code_run_array_loop db rest (state.new_run code_point none) code_runs2

/-- `code_run_array` together with its (otherwise local) final encoder
state, so that `CRAState.max_run` can be observed. -/
def code_run_array_with_state (db : DbDict) :
    Except String (CRAState × List OutputRow) :=
  code_run_array_loop db all_code_points CRAState.init []

/-- `code_run_array(db)` of `cprun/parse.py`: the ordered list of run
records for the whole code point space, or the first assertion failure. -/
def code_run_array (db : DbDict) : Except String (List OutputRow) :=
  match code_run_array_with_state db with
  | .error e => .error e
  | .ok (_, code_runs) => .ok code_runs

/-- `n` successive `extend_run` calls with the same rule, keeping the state
(used to trace the encoder through a long uniform run). -/
def extend_run_iter (s : CRAState) (mc : Option GrammarRule) : Nat → CRAState
  | 0 => s
  | n + 1 => ((extend_run_iter s mc n).extend_run mc).2

/-- The encoder state after opening a run of `identifier_part` at code point
0 and extending it `n` times with the same rule. -/
def uniform_run_state (n : Nat) : CRAState :=
  extend_run_iter (CRAState.init.new_run 0 (some GrammarRule.identifier_part))
    (some GrammarRule.identifier_part) n

set_option maxRecDepth 8000 in
/-- Claim C1: on a uniform run the encoder does NOT stop extending at length
511.  After 510 successful extensions the open run has length 511, yet the
next `extend_run` with the same rule still succeeds (the cap check
`length > MAX_RUN_LENGTH` runs before the increment), taking the run to
length 512; `end_run` then fails its own assertion
`length <= MAX_RUN_LENGTH`, so on a database with 600 consecutive
`identifier_part` code points the program aborts instead of emitting the
claimed records of lengths 511 and 89. -/
theorem c1_length_cap_off_by_one :
    (uniform_run_state 510).length = 511 ∧
    ((uniform_run_state 510).extend_run (some GrammarRule.identifier_part)).1
      = true ∧
    (uniform_run_state 511).length = 512 ∧
    (uniform_run_state 511).end_run [] =
      .error "end_run: assertion length <= MAX_RUN_LENGTH failed" ∧
    ((uniform_run_state 511).extend_run (some GrammarRule.identifier_part)).1
      = false := by
  decide

/-- The classifier verdict `code_run_array` computes for one code point:
database lookup (`db.get`), then `CATEGORY_TO_GRAMMAR_RULE.get` on the
record's `General_Category`.  An absent code point, or a category without a
table entry, yields no rule. -/
def classify (db : DbDict) (cp : Nat) : Option GrammarRule :=
  match db cp with
  | none => none
  | some v => CATEGORY_TO_GRAMMAR_RULE v.General_Category

/-- The `special_code_points` dictionary of `patch_special_code_points`, in
its insertion (= iteration) order.  It has exactly ten entries; U+000A and
U+000D are not among them. -/
def special_code_points : List (Nat × GeneralCategory) :=
  [(0x0009, .Space_Separator),
   (0x000B, .Space_Separator),
   (0x000C, .Space_Separator),
   (0x0020, .Space_Separator),
   (0x0024, .Other_Letter),
   (0x005F, .Other_Letter),
   (0x00A0, .Space_Separator),
   (0x200C, .Spacing_Mark),
   (0x200D, .Spacing_Mark),
   (0xFEFF, .Space_Separator)]

/-- One step of the patch loop: `db[cp]['General_Category'] = cat`.  In
Python a missing key raises `KeyError`; here that is an error result.  A
present key has its `General_Category` replaced, all other fields kept. -/
def db_set_category (db : DbDict) (cp : Nat) (cat : GeneralCategory) :
    Except String DbDict :=
  match db cp with
  | none => .error "KeyError"
  | some v =>
    .ok (fun x => if x = cp then some { v with General_Category := cat } else db x)

/-- The `for cp, cat in special_code_points.items()` loop of
`patch_special_code_points`. -/
def patch_loop :
    List (Nat × GeneralCategory) → DbDict → Except String DbDict
  | [], db => .ok db
  | (cp, cat) :: rest, db =>
    match db_set_category db cp cat with
    | .error e => .error e
    | .ok db2 => patch_loop rest db2

/-- `patch_special_code_points(db)`: first the three `assert` statements
checking that the override target categories map to the expected rules, then
the override loop. -/
def patch_special_code_points (db : DbDict) : Except String DbDict :=
  if CATEGORY_TO_GRAMMAR_RULE .Space_Separator = some .whitespace ∧
      CATEGORY_TO_GRAMMAR_RULE .Other_Letter = some .identifier_start ∧
      CATEGORY_TO_GRAMMAR_RULE .Spacing_Mark = some .identifier_part then
    patch_loop special_code_points db
  else
    .error "assertion failed: CATEGORY_TO_GRAMMAR_RULE consistency"

lemma patch_special_eq (db : DbDict) :
    patch_special_code_points db = patch_loop special_code_points db := by
  rw [patch_special_code_points, if_pos]
  exact ⟨by decide, by decide, by decide⟩

lemma patch_loop_spec :
    ∀ (entries : List (Nat × GeneralCategory)) (db : DbDict),
      (entries.map Prod.fst).Nodup →
      (∀ p ∈ entries, (db p.1).isSome = true) →
      ∃ db2, patch_loop entries db = .ok db2 ∧
        (∀ cp cat, (cp, cat) ∈ entries →
          db2 cp = (db cp).map (fun v => { v with General_Category := cat })) ∧
        (∀ cp, cp ∉ entries.map Prod.fst → db2 cp = db cp) := by
  intro entries
  induction entries with
  | nil =>
    intro db _ _
    exact ⟨db, rfl, by simp, fun _ _ => rfl⟩
  | cons p rest ih =>
    obtain ⟨c, k⟩ := p
    intro db hnd hpres
    have hc : (db c).isSome = true := hpres (c, k) (List.mem_cons_self _ _)
    obtain ⟨v, hv⟩ := Option.isSome_iff_exists.mp hc
    have hnd1 : (rest.map Prod.fst).Nodup := (List.nodup_cons.mp hnd).2
    have hcnot : c ∉ rest.map Prod.fst := (List.nodup_cons.mp hnd).1
    have hpres1 : ∀ p ∈ rest,
        ((fun x => if x = c then some { v with General_Category := k } else db x)
          p.1).isSome = true := by
      intro p hp
      by_cases hpc : p.1 = c
      · simp [hpc]
      · simp only [if_neg hpc]
        exact hpres p (List.mem_cons_of_mem _ hp)
    obtain ⟨db2, hok, hmem, hnot⟩ :=
      ih (fun x => if x = c then some { v with General_Category := k } else db x)
        hnd1 hpres1
    refine ⟨db2, ?_, ?_, ?_⟩
    · simp only [patch_loop, db_set_category, hv]
      exact hok
    · intro cp cat hcp
      rcases List.mem_cons.mp hcp with heq | hrest
      · rw [Prod.mk.injEq] at heq
        obtain ⟨h1, h2⟩ := heq
        subst h1
        subst h2
        rw [hnot cp hcnot]
        simp [hv]
      · have hne : cp ≠ c := by
          intro h
          exact hcnot (h ▸ List.mem_map_of_mem Prod.fst hrest)
        rw [hmem cp cat hrest]
        simp [hne]
    · intro cp hcp
      have hne : cp ≠ c := by
        intro h
        exact hcp (by simp [h])
      have hrest : cp ∉ rest.map Prod.fst := by
        intro h
        exact hcp (List.mem_cons_of_mem _ h)
      rw [hnot cp hrest]
      simp [hne]

lemma patch_loop_error_of_missing :
    ∀ (entries : List (Nat × GeneralCategory)) (db : DbDict)
      (cp : Nat) (cat : GeneralCategory),
      (cp, cat) ∈ entries → db cp = none →
      ∃ e, patch_loop entries db = .error e := by
  intro entries
  induction entries with
  | nil =>
    intro db cp cat hmem _
    exact absurd hmem (List.not_mem_nil _)
  | cons p rest ih =>
    obtain ⟨c, k⟩ := p
    intro db cp cat hmem hnone
    cases hdbc : db c with
    | none =>
      exact ⟨"KeyError", by simp [patch_loop, db_set_category, hdbc]⟩
    | some v =>
      have hne : cp ≠ c := by
        intro h
        rw [h, hdbc] at hnone
        exact Option.noConfusion hnone
      have hrest : (cp, cat) ∈ rest := by
        rcases List.mem_cons.mp hmem with heq | h
        · obtain ⟨h1, _⟩ := Prod.mk.injEq .. ▸ heq
          exact absurd h1 hne
        · exact h
      obtain ⟨e, he⟩ := ih
        (fun x => if x = c then some { v with General_Category := k } else db x)
        cp cat hrest (by simp only [if_neg hne]; exact hnone)
      exact ⟨e, by simp only [patch_loop, db_set_category, hdbc]; exact he⟩

/-- Claim C9: applying the overrides fails fast, with an error raised at
patch time, as soon as the database is missing any code point listed in the
override table (the Python loop's `db[cp]` raises `KeyError`); and on a
database containing every listed code point the patch succeeds. -/
theorem c9_patch_fails_fast :
    (∀ (db : DbDict) (cp : Nat) (cat : GeneralCategory),
      (cp, cat) ∈ special_code_points → db cp = none →
      ∃ e, patch_special_code_points db = .error e) ∧
    (∀ db : DbDict,
      (∀ p ∈ special_code_points, (db p.1).isSome = true) →
      ∃ db2, patch_special_code_points db = .ok db2) := by
  constructor
  · intro db cp cat hmem hnone
    obtain ⟨e, he⟩ := patch_loop_error_of_missing special_code_points db cp cat hmem hnone
    exact ⟨e, by rw [patch_special_eq]; exact he⟩
  · intro db hpres
    obtain ⟨db2, hok, -, -⟩ := patch_loop_spec special_code_points db (by decide) hpres
    exact ⟨db2, by rw [patch_special_eq]; exact hok⟩

/-- An example database holding the twelve code points named by claim C2
with their native Unicode general categories (U+0009 through U+000D are
`Cc`/Control in UnicodeData.txt). -/
def example_db : DbDict := fun cp =>
  if cp = 0x0009 then some ⟨"<control-0009>", .Control⟩
  else if cp = 0x000A then some ⟨"<control-000A>", .Control⟩
  else if cp = 0x000B then some ⟨"<control-000B>", .Control⟩
  else if cp = 0x000C then some ⟨"<control-000C>", .Control⟩
  else if cp = 0x000D then some ⟨"<control-000D>", .Control⟩
  else if cp = 0x0020 then some ⟨"SPACE", .Space_Separator⟩
  else if cp = 0x0024 then some ⟨"DOLLAR SIGN", .Currency_Symbol⟩
  else if cp = 0x005F then some ⟨"LOW LINE", .Connector_Punctuation⟩
  else if cp = 0x00A0 then some ⟨"NO-BREAK SPACE", .Space_Separator⟩
  else if cp = 0x200C then some ⟨"ZERO WIDTH NON-JOINER", .Format⟩
  else if cp = 0x200D then some ⟨"ZERO WIDTH JOINER", .Format⟩
  else if cp = 0xFEFF then some ⟨"ZERO WIDTH NO-BREAK SPACE", .Format⟩
  else none

/-- The classification of `cp` after the override patch: `none` when the
patch itself failed, otherwise `some` of the direct classifier verdict. -/
def classify_after_patch (db : DbDict) (cp : Nat) :
    Option (Option GrammarRule) :=
  match patch_special_code_points db with
  | .error _ => none
  | .ok db2 => some (classify db2 cp)

/-- Claim C2, counterexample: `example_db` contains records for U+000A and
U+000D (native category Control), the patch succeeds on it, and the
classifier then assigns NO rule to U+000A and U+000D — not `whitespace` as
the claim states: the override table has no entry for either code point. -/
theorem c2_linefeed_carriage_return_counterexample :
    (example_db 0x000A).isSome = true ∧
    (example_db 0x000D).isSome = true ∧
    classify_after_patch example_db 0x000A = some none ∧
    classify_after_patch example_db 0x000D = some none := by
  decide

/-- Claim C2, amended: after the override patch, the classifier assigns
`whitespace` to U+0009, U+000B, U+000C, U+0020, U+00A0 and U+FEFF,
`identifier_start` to U+0024 and U+005F, and `identifier_part` to U+200C and
U+200D, for every input database containing records for these ten code
points.  (U+000A and U+000D are not in the override table: their
classification follows their native category, which for Control is no
rule.) -/
theorem c2_overridden_classification :
    ∀ db : DbDict,
      (db 0x0009).isSome = true → (db 0x000B).isSome = true →
      (db 0x000C).isSome = true → (db 0x0020).isSome = true →
      (db 0x0024).isSome = true → (db 0x005F).isSome = true →
      (db 0x00A0).isSome = true → (db 0x200C).isSome = true →
      (db 0x200D).isSome = true → (db 0xFEFF).isSome = true →
      ∃ db2, patch_special_code_points db = .ok db2 ∧
        classify db2 0x0009 = some GrammarRule.whitespace ∧
        classify db2 0x000B = some GrammarRule.whitespace ∧
        classify db2 0x000C = some GrammarRule.whitespace ∧
        classify db2 0x0020 = some GrammarRule.whitespace ∧
        classify db2 0x00A0 = some GrammarRule.whitespace ∧
        classify db2 0xFEFF = some GrammarRule.whitespace ∧
        classify db2 0x0024 = some GrammarRule.identifier_start ∧
        classify db2 0x005F = some GrammarRule.identifier_start ∧
        classify db2 0x200C = some GrammarRule.identifier_part ∧
        classify db2 0x200D = some GrammarRule.identifier_part := by
  intro db h9 hB hC h20 h24 h5F hA0 hZC hZD hFF
  have hpres : ∀ p ∈ special_code_points, (db p.1).isSome = true := by
    intro p hp
    simp only [special_code_points, List.mem_cons, List.not_mem_nil, or_false] at hp
    rcases hp with rfl | rfl | rfl | rfl | rfl | rfl | rfl | rfl | rfl | rfl
    exacts [h9, hB, hC, h20, h24, h5F, hA0, hZC, hZD, hFF]
  obtain ⟨db2, hok, hmem, -⟩ :=
    patch_loop_spec special_code_points db (by decide) hpres
  have hcl : ∀ (cp : Nat) (cat : GeneralCategory),
      (cp, cat) ∈ special_code_points → (db cp).isSome = true →
      classify db2 cp = CATEGORY_TO_GRAMMAR_RULE cat := by
    intro cp cat hcp hsome
    obtain ⟨v, hv⟩ := Option.isSome_iff_exists.mp hsome
    rw [classify, hmem cp cat hcp, hv]
    rfl
  refine ⟨db2, by rw [patch_special_eq]; exact hok, ?_, ?_, ?_, ?_, ?_, ?_, ?_, ?_, ?_, ?_⟩
  · exact hcl 0x0009 .Space_Separator (by decide) h9
  · exact hcl 0x000B .Space_Separator (by decide) hB
  · exact hcl 0x000C .Space_Separator (by decide) hC
  · exact hcl 0x0020 .Space_Separator (by decide) h20
  · exact hcl 0x00A0 .Space_Separator (by decide) hA0
  · exact hcl 0xFEFF .Space_Separator (by decide) hFF
  · exact hcl 0x0024 .Other_Letter (by decide) h24
  · exact hcl 0x005F .Other_Letter (by decide) h5F
  · exact hcl 0x200C .Spacing_Mark (by decide) hZC
  · exact hcl 0x200D .Spacing_Mark (by decide) hZD

/-- Claim C2 witness: the amended theorem applied to the concrete
`example_db`, whose ten overridden code points are all present. -/
theorem c2_overridden_classification_witness :
    ∃ db2, patch_special_code_points example_db = .ok db2 ∧
      classify db2 0x0009 = some GrammarRule.whitespace ∧
      classify db2 0x000B = some GrammarRule.whitespace ∧
      classify db2 0x000C = some GrammarRule.whitespace ∧
      classify db2 0x0020 = some GrammarRule.whitespace ∧
      classify db2 0x00A0 = some GrammarRule.whitespace ∧
      classify db2 0xFEFF = some GrammarRule.whitespace ∧
      classify db2 0x0024 = some GrammarRule.identifier_start ∧
      classify db2 0x005F = some GrammarRule.identifier_start ∧
      classify db2 0x200C = some GrammarRule.identifier_part ∧
      classify db2 0x200D = some GrammarRule.identifier_part :=
  c2_overridden_classification example_db (by decide) (by decide) (by decide)
    (by decide) (by decide) (by decide) (by decide) (by decide) (by decide)
    (by decide)

/-- Claim C9 witness: on the empty database the patch fails (U+0009 is
missing), and on `example_db` (all ten overridden code points present) it
succeeds. -/
theorem c9_patch_fails_fast_witness :
    (∃ e, patch_special_code_points (fun _ => none) = .error e) ∧
    (∃ db2, patch_special_code_points example_db = .ok db2) := by
  constructor
  · exact c9_patch_fails_fast.1 (fun _ => none) 0x0009 GeneralCategory.Space_Separator
      (by decide) rfl
  · exact c9_patch_fails_fast.2 example_db (by decide)

/-- The rule of the (first) emitted run record whose interval
`[code_point, code_point + length)` contains `cp`, if any. -/
def lookup_run (rows : List OutputRow) (cp : Nat) : Option GrammarRule :=
  match rows with
  | [] => none
  | r :: rest =>
    if r.code_point ≤ cp ∧ cp < r.code_point + r.length then some r.category
    else lookup_run rest cp

/-- The bit-width conformance of one emitted run record, as claim C5 states
it: the start is a valid code point fitting the 21-bit field, the length is
between 1 and 511, and the rule is one of the three defined values, fitting
2 bits. -/
def RowInBounds (r : OutputRow) : Prop :=
  r.code_point ≤ MAX_CODE_POINT ∧
  r.code_point < 2 ^ CODE_POINT_BITS ∧
  1 ≤ r.length ∧ r.length ≤ MAX_RUN_LENGTH ∧
  r.category.value ≤ MAX_RULE ∧
  (r.category = GrammarRule.whitespace ∨ r.category = GrammarRule.identifier_start ∨
    r.category = GrammarRule.identifier_part)

/-- The classification the evolving encoder answers for `cp`: the emitted
records first, then the run still in progress. -/
def pending_lookup (s : CRAState) (runs : List OutputRow) (cp : Nat) :
    Option GrammarRule :=
  match lookup_run runs cp with
  | some r => some r
  | none => if s.first ≤ cp ∧ cp < s.first + s.length then s.cat else none

lemma end_run_of_cat_none (s : CRAState) (runs : List OutputRow)
    (h : s.cat = none) : s.end_run runs = .ok runs := by
  simp [CRAState.end_run, h]

lemma end_run_of_length_zero (s : CRAState) (runs : List OutputRow)
    (h : s.length = 0) : s.end_run runs = .ok runs := by
  cases hc : s.cat <;> simp [CRAState.end_run, hc, h]

lemma end_run_some (s : CRAState) (c : GrammarRule) (runs runs2 : List OutputRow)
    (hcat : s.cat = some c) (hpos : 0 < s.length)
    (h : s.end_run runs = .ok runs2) :
    runs2 = runs ++ [{ code_point := s.first, length := s.length, category := c }] ∧
    s.first ≤ MAX_CODE_POINT ∧ s.length ≤ MAX_RUN_LENGTH ∧ c.value ≤ MAX_RULE := by
  rw [CRAState.end_run, hcat] at h
  simp only [if_pos hpos] at h
  by_cases h1 : s.first ≤ MAX_CODE_POINT
  · rw [if_pos h1] at h
    by_cases h2 : s.length ≤ MAX_RUN_LENGTH
    · rw [if_pos h2] at h
      by_cases h3 : c.value ≤ MAX_RULE
      · rw [if_pos h3] at h
        by_cases h4 : s.first < 2 ^ CODE_POINT_BITS ∧
            s.length < 2 ^ RUN_LENGTH_BITS ∧ c.value < 2 ^ RULE_BITS
        · rw [if_pos h4] at h
          injection h with h5
          exact ⟨h5.symm, h1, h2, h3⟩
        · rw [if_neg h4] at h
          exact Except.noConfusion h
      · rw [if_neg h3] at h
        exact Except.noConfusion h
    · rw [if_neg h2] at h
      exact Except.noConfusion h
  · rw [if_neg h1] at h
    exact Except.noConfusion h

lemma extend_run_false (s : CRAState) (mc : Option GrammarRule) (s2 : CRAState)
    (h : s.extend_run mc = (false, s2)) : s2 = s := by
  cases hc : s.cat with
  | none =>
    simp only [CRAState.extend_run, hc] at h
    injection h with _ h2
    exact h2.symm
  | some c =>
    simp only [CRAState.extend_run, hc] at h
    by_cases hmc : mc = some c
    · rw [if_pos hmc] at h
      by_cases hl : s.length > MAX_RUN_LENGTH
      · rw [if_pos hl] at h
        injection h with _ h2
        exact h2.symm
      · rw [if_neg hl] at h
        injection h with h1 _
        exact Bool.noConfusion h1
    · rw [if_neg hmc] at h
      injection h with _ h2
      exact h2.symm

lemma extend_run_true (s : CRAState) (mc : Option GrammarRule) (s2 : CRAState)
    (h : s.extend_run mc = (true, s2)) :
    ∃ c, s.cat = some c ∧ mc = some c ∧ s.length ≤ MAX_RUN_LENGTH ∧
      s2 = { s with
             length := s.length + 1
             max_length := max s.max_length (s.length + 1) } := by
  cases hc : s.cat with
  | none =>
    simp only [CRAState.extend_run, hc] at h
    injection h with h1 _
    exact Bool.noConfusion h1
  | some c =>
    simp only [CRAState.extend_run, hc] at h
    by_cases hmc : mc = some c
    · rw [if_pos hmc] at h
      by_cases hl : s.length > MAX_RUN_LENGTH
      · rw [if_pos hl] at h
        injection h with h1 _
        exact Bool.noConfusion h1
      · rw [if_neg hl] at h
        injection h with _ h2
        exact ⟨c, rfl, hmc, Nat.le_of_not_lt hl, h2.symm⟩
    · rw [if_neg hmc] at h
      injection h with h1 _
      exact Bool.noConfusion h1

lemma lookup_run_append (rows : List OutputRow) (r : OutputRow) (cp : Nat) :
    lookup_run (rows ++ [r]) cp =
      match lookup_run rows cp with
      | some x => some x
      | none =>
        if r.code_point ≤ cp ∧ cp < r.code_point + r.length then some r.category
        else none := by
  induction rows with
  | nil => simp [lookup_run]
  | cons a rest ih =>
    by_cases h : a.code_point ≤ cp ∧ cp < a.code_point + a.length
    · simp [lookup_run, h]
    · simp only [List.cons_append, lookup_run, if_neg h]
      exact ih

lemma lookup_run_none_of_le (rows : List OutputRow) (cp : Nat)
    (h : ∀ r ∈ rows, r.code_point + r.length ≤ cp) : lookup_run rows cp = none := by
  induction rows with
  | nil => rfl
  | cons a rest ih =>
    have ha : a.code_point + a.length ≤ cp := h a (List.mem_cons_self _ _)
    have hno : ¬(a.code_point ≤ cp ∧ cp < a.code_point + a.length) := by omega
    simp only [lookup_run, if_neg hno]
    exact ih (fun r hr => h r (List.mem_cons_of_mem _ hr))

lemma pending_lookup_of_length_zero (s : CRAState) (runs : List OutputRow)
    (cp : Nat) (h : s.length = 0) :
    pending_lookup s runs cp = lookup_run runs cp := by
  rw [pending_lookup]
  cases lookup_run runs cp with
  | some x => rfl
  | none =>
    have hno : ¬(s.first ≤ cp ∧ cp < s.first + s.length) := by omega
    rw [if_neg hno]

lemma pending_lookup_emit (s : CRAState) (c : GrammarRule) (runs : List OutputRow)
    (cp : Nat) (hcat : s.cat = some c) :
    lookup_run
        (runs ++ [{ code_point := s.first, length := s.length, category := c }]) cp =
      pending_lookup s runs cp := by
  rw [lookup_run_append, pending_lookup]
  cases lookup_run runs cp with
  | some x => rfl
  | none =>
    by_cases h : s.first ≤ cp ∧ cp < s.first + s.length
    · rw [if_pos h, if_pos h, hcat]
    · rw [if_neg h, if_neg h]

lemma range'_eq_cons (c n : Nat) (h : 0 < n) :
    List.range' c n = c :: List.range' (c + 1) (n - 1) := by
  cases n with
  | zero => exact absurd h (by omega)
  | succ m => rw [List.range'_succ, Nat.succ_sub_one]

lemma loop_none_tail (db : DbDict) :
    ∀ (n c : Nat) (s : CRAState) (runs : List OutputRow),
      (∀ cp, c ≤ cp → db cp = none) →
      s.cat = none →
      code_run_array_loop db (List.range' c n) s runs =
        .ok (if n = 0 then s else
          { first := c + n - 1, length := 0, max_length := s.max_length, cat := none },
          runs) := by
  intro n
  induction n with
  | zero =>
    intro c s runs _ hcat
    simp [List.range', code_run_array_loop, end_run_of_cat_none s runs hcat]
  | succ n ih =>
    intro c s runs hdb hcat
    rw [List.range'_succ]
    simp only [code_run_array_loop, hdb c (Nat.le_refl c),
      end_run_of_cat_none s runs hcat]
    rw [ih (c + 1) (s.new_run c none) runs (fun cp hcp => hdb cp (by omega)) rfl]
    rcases Nat.eq_zero_or_pos n with hn | hn
    · subst hn
      simp [CRAState.new_run]
    · have h1 : ¬(n = 0) := by omega
      have h2 : ¬(n + 1 = 0) := by omega
      rw [if_neg h1, if_neg h2]
      simp only [CRAState.new_run, Option.isSome_none, Bool.false_eq_true, if_false]
      congr 3
      omega

lemma pending_lookup_out (s : CRAState) (runs : List OutputRow) (cp : Nat)
    (h : ¬(s.first ≤ cp ∧ cp < s.first + s.length)) :
    pending_lookup s runs cp = lookup_run runs cp := by
  rw [pending_lookup]
  cases hl : lookup_run runs cp with
  | some x => rfl
  | none => rw [if_neg h]

/-- One run boundary: the code point `c` does not extend the current run, so
the encoder closes it with `end_run` and opens a new run at `c` with verdict
`mc`.  All the loop invariants are re-established at position `c + 1`. -/
lemma pending_lookup_eq_of_none (s : CRAState) (runs : List OutputRow) (cp : Nat)
    (h : lookup_run runs cp = none) :
    pending_lookup s runs cp =
      if s.first ≤ cp ∧ cp < s.first + s.length then s.cat else none := by
  rw [pending_lookup, h]

/-- One run boundary: the code point `c` does not extend the current run, so
the encoder closes it with `end_run` and opens a new run at `c` with verdict
`mc`.  All the loop invariants are re-established at position `c + 1`. -/
lemma boundary_step (db : DbDict) (c : Nat) (s : CRAState)
    (runs runs2' : List OutputRow) (mc : Option GrammarRule)
    (hclass : classify db c = mc)
    (inv1 : s.cat = none → s.length = 0 ∧ s.first ≤ c)
    (inv2 : ∀ cv, s.cat = some cv → 0 < s.length ∧ s.first + s.length = c)
    (inv3 : ∀ r ∈ runs, r.code_point + r.length ≤ s.first)
    (inv4 : List.Pairwise (fun a b => a.code_point + a.length ≤ b.code_point) runs)
    (inv5 : ∀ r ∈ runs, RowInBounds r)
    (inv6 : ∀ cp, cp < c → pending_lookup s runs cp = classify db cp)
    (inv8 : s.max_length ≤ s.length ∨ ∃ r ∈ runs, s.max_length ≤ r.length)
    (he : s.end_run runs = .ok runs2') :
    ((s.new_run c mc).cat = none →
      (s.new_run c mc).length = 0 ∧ (s.new_run c mc).first ≤ c + 1) ∧
    (∀ cv, (s.new_run c mc).cat = some cv →
      0 < (s.new_run c mc).length ∧
      (s.new_run c mc).first + (s.new_run c mc).length = c + 1) ∧
    (∀ r ∈ runs2', r.code_point + r.length ≤ (s.new_run c mc).first) ∧
    List.Pairwise (fun a b => a.code_point + a.length ≤ b.code_point) runs2' ∧
    (∀ r ∈ runs2', RowInBounds r) ∧
    (∀ cp, cp < c + 1 →
      pending_lookup (s.new_run c mc) runs2' cp = classify db cp) ∧
    (s.new_run c mc).max_length = s.max_length ∧
    ((s.new_run c mc).max_length ≤ (s.new_run c mc).length ∨
      ∃ r ∈ runs2', (s.new_run c mc).max_length ≤ r.length) := by
  have hfcat : (s.new_run c mc).cat = mc := rfl
  have hffirst : (s.new_run c mc).first = c := rfl
  have hflen : (s.new_run c mc).length = (if mc.isSome then 1 else 0) := rfl
  have hfmax : (s.new_run c mc).max_length = s.max_length := rfl
  have hfirst_le : s.first ≤ c := by
    cases hcat : s.cat with
    | none => exact (inv1 hcat).2
    | some cv =>
      obtain ⟨hpos, hsum⟩ := inv2 cv hcat
      omega
  -- the effect of end_run on the accumulated rows
  have hemit :
      (runs2' = runs ∧ s.length = 0) ∨
      (∃ cv, s.cat = some cv ∧ 0 < s.length ∧ s.first + s.length = c ∧
        s.first ≤ MAX_CODE_POINT ∧ s.length ≤ MAX_RUN_LENGTH ∧
        cv.value ≤ MAX_RULE ∧
        runs2' = runs ++
          [{ code_point := s.first, length := s.length, category := cv }]) := by
    cases hcat : s.cat with
    | none =>
      rw [end_run_of_cat_none s runs hcat] at he
      injection he with he2
      exact Or.inl ⟨he2.symm, (inv1 hcat).1⟩
    | some cv =>
      rcases Nat.eq_zero_or_pos s.length with hz | hpos
      · rw [end_run_of_length_zero s runs hz] at he
        injection he with he2
        exact Or.inl ⟨he2.symm, hz⟩
      · obtain ⟨hpos', hsum⟩ := inv2 cv hcat
        obtain ⟨hrw, hb1, hb2, hb3⟩ := end_run_some s cv runs runs2' hcat hpos he
        exact Or.inr ⟨cv, rfl, hpos, hsum, hb1, hb2, hb3, hrw⟩
  have hend2' : ∀ r ∈ runs2', r.code_point + r.length ≤ c := by
    rcases hemit with ⟨hrw, -⟩ | ⟨cv, -, -, hsum, -, -, -, hrw⟩
    · intro r hr
      rw [hrw] at hr
      exact Nat.le_trans (inv3 r hr) hfirst_le
    · intro r hr
      rw [hrw] at hr
      rcases List.mem_append.mp hr with hr2 | hr2
      · exact Nat.le_trans (inv3 r hr2) hfirst_le
      · simp only [List.mem_singleton] at hr2
        subst hr2
        simpa using Nat.le_of_eq hsum
  have hpend_eq : ∀ cp, lookup_run runs2' cp = pending_lookup s runs cp := by
    rcases hemit with ⟨hrw, hz⟩ | ⟨cv, hcat, -, -, -, -, -, hrw⟩
    · intro cp
      rw [hrw, pending_lookup_of_length_zero s runs cp hz]
    · intro cp
      rw [hrw]
      exact pending_lookup_emit s cv runs cp hcat
  refine ⟨?_, ?_, ?_, ?_, ?_, ?_, hfmax, ?_⟩
  · intro hN
    rw [hfcat] at hN
    subst hN
    exact ⟨by rw [hflen]; rfl, by rw [hffirst]; omega⟩
  · intro cv hN
    rw [hfcat] at hN
    subst hN
    rw [hflen, hffirst]
    simp
  · intro r hr
    rw [hffirst]
    exact hend2' r hr
  · rcases hemit with ⟨hrw, -⟩ | ⟨cv, -, -, -, -, -, -, hrw⟩ <;> rw [hrw]
    · exact inv4
    · refine List.pairwise_append.mpr ⟨inv4, List.pairwise_singleton _ _, ?_⟩
      intro a ha b hb
      simp only [List.mem_singleton] at hb
      subst hb
      exact inv3 a ha
  · rcases hemit with ⟨hrw, -⟩ | ⟨cv, hcat, hpos, hsum, hb1, hb2, hb3, hrw⟩ <;>
      rw [hrw]
    · exact inv5
    · intro r hr
      rcases List.mem_append.mp hr with hr2 | hr2
      · exact inv5 r hr2
      · simp only [List.mem_singleton] at hr2
        subst hr2
        refine ⟨hb1, Nat.lt_of_le_of_lt hb1 (by decide), hpos, hb2, hb3, ?_⟩
        cases cv
        · exact Or.inl rfl
        · exact Or.inr (Or.inl rfl)
        · exact Or.inr (Or.inr rfl)
  · intro cp hcp
    rcases Nat.lt_or_ge cp c with hlt | hge
    · -- below the boundary: the new open run cannot cover cp
      have hout : ¬((s.new_run c mc).first ≤ cp ∧
          cp < (s.new_run c mc).first + (s.new_run c mc).length) := by
        rw [hffirst]
        omega
      rw [pending_lookup_out _ _ _ hout, hpend_eq cp]
      exact inv6 cp hlt
    · -- cp = c: only the fresh run can answer
      have hcpc : cp = c := by omega
      subst hcpc
      have hnone : lookup_run runs2' cp = none :=
        lookup_run_none_of_le runs2' cp hend2'
      rw [pending_lookup_eq_of_none _ _ _ hnone, hfcat, hffirst, hflen, hclass]
      cases hmc : mc with
      | none => simp
      | some cv => simp
  · rcases hemit with ⟨hrw, hz⟩ | ⟨cv, hcat, hpos, -, -, -, -, hrw⟩
    · rcases inv8 with h8 | ⟨r, hr, h8⟩
      · rw [hz] at h8
        refine Or.inl ?_
        rw [hfmax, hflen]
        cases mc <;> simp <;> omega
      · exact Or.inr ⟨r, by rw [hrw]; exact hr, by rw [hfmax]; exact h8⟩
    · rcases inv8 with h8 | ⟨r, hr, h8⟩
      · refine Or.inr ⟨{ code_point := s.first, length := s.length, category := cv },
          ?_, ?_⟩
        · rw [hrw]
          exact List.mem_append_right _ (List.mem_singleton_self _)
        · rw [hfmax]
          exact h8
      · exact Or.inr ⟨r, by rw [hrw]; exact List.mem_append_left _ hr,
          by rw [hfmax]; exact h8⟩

lemma end_run_emit (s : CRAState) (runs runs2' : List OutputRow)
    (inv1 : s.cat = none → s.length = 0)
    (he : s.end_run runs = .ok runs2') :
    (runs2' = runs ∧ s.length = 0) ∨
    (∃ cv, s.cat = some cv ∧ 0 < s.length ∧
      s.first ≤ MAX_CODE_POINT ∧ s.length ≤ MAX_RUN_LENGTH ∧
      cv.value ≤ MAX_RULE ∧
      runs2' = runs ++
        [{ code_point := s.first, length := s.length, category := cv }]) := by
  cases hcat : s.cat with
  | none =>
    rw [end_run_of_cat_none s runs hcat] at he
    injection he with he2
    exact Or.inl ⟨he2.symm, inv1 hcat⟩
  | some cv =>
    rcases Nat.eq_zero_or_pos s.length with hz | hpos
    · rw [end_run_of_length_zero s runs hz] at he
      injection he with he2
      exact Or.inl ⟨he2.symm, hz⟩
    · obtain ⟨hrw, hb1, hb2, hb3⟩ := end_run_some s cv runs runs2' hcat hpos he
      exact Or.inr ⟨cv, rfl, hpos, hb1, hb2, hb3, hrw⟩

/-- The master invariant of the encoder loop: starting at position `c` with a
state and row list satisfying the invariants, a successful run of the loop
over `range' c n` yields rows that answer every code point below `c + n`
exactly as the classifier does, are sorted with pairwise adjacent-disjoint
intervals, and conform to the bit widths; the final `max_length` is never 1,
and unless it is 0 some emitted row's length reaches it. -/
lemma loop_master (db : DbDict) :
    ∀ (n c : Nat) (s : CRAState) (runs : List OutputRow)
      (s2 : CRAState) (runs2 : List OutputRow),
      (s.cat = none → s.length = 0 ∧ s.first ≤ c) →
      (∀ cv, s.cat = some cv → 0 < s.length ∧ s.first + s.length = c) →
      (∀ r ∈ runs, r.code_point + r.length ≤ s.first) →
      List.Pairwise (fun a b => a.code_point + a.length ≤ b.code_point) runs →
      (∀ r ∈ runs, RowInBounds r) →
      (∀ cp, cp < c → pending_lookup s runs cp = classify db cp) →
      (s.max_length = 0 ∨ 2 ≤ s.max_length) →
      (s.max_length ≤ s.length ∨ ∃ r ∈ runs, s.max_length ≤ r.length) →
      code_run_array_loop db (List.range' c n) s runs = .ok (s2, runs2) →
      (∀ cp, cp < c + n → lookup_run runs2 cp = classify db cp) ∧
      List.Pairwise (fun a b => a.code_point + a.length ≤ b.code_point) runs2 ∧
      (∀ r ∈ runs2, RowInBounds r) ∧
      (s2.max_length = 0 ∨ 2 ≤ s2.max_length) ∧
      (s2.max_length = 0 ∨ ∃ r ∈ runs2, s2.max_length ≤ r.length) := by
  intro n
  induction n with
  | zero =>
    intro c s runs s2 runs2 inv1 inv2 inv3 inv4 inv5 inv6 inv7 inv8 h
    simp only [List.range', code_run_array_loop] at h
    cases he : s.end_run runs with
    | error e =>
      rw [he] at h
      exact Except.noConfusion h
    | ok runs2' =>
      rw [he] at h
      injection h with h1
      injection h1 with hs hr
      subst hs
      subst hr
      rcases end_run_emit s runs runs2' (fun hx => (inv1 hx).1) he with
        ⟨hrw, hz⟩ | ⟨cv, hcat, hpos, hb1, hb2, hb3, hrw⟩
      · subst hrw
        refine ⟨?_, inv4, inv5, inv7, ?_⟩
        · intro cp hcp
          rw [← pending_lookup_of_length_zero s runs2' cp hz]
          exact inv6 cp (by omega)
        · rcases inv8 with h8 | ⟨r, hr, h8⟩
          · exact Or.inl (by omega)
          · exact Or.inr ⟨r, hr, h8⟩
      · obtain ⟨hpos2, hsum⟩ := inv2 cv hcat
        subst hrw
        refine ⟨?_, ?_, ?_, inv7, ?_⟩
        · intro cp hcp
          rw [pending_lookup_emit s cv runs cp hcat]
          exact inv6 cp (by omega)
        · refine List.pairwise_append.mpr ⟨inv4, List.pairwise_singleton _ _, ?_⟩
          intro a ha b hb
          simp only [List.mem_singleton] at hb
          subst hb
          exact inv3 a ha
        · intro r hr
          rcases List.mem_append.mp hr with hr2 | hr2
          · exact inv5 r hr2
          · simp only [List.mem_singleton] at hr2
            subst hr2
            refine ⟨hb1, Nat.lt_of_le_of_lt hb1 (by decide), hpos, hb2, hb3, ?_⟩
            cases cv
            · exact Or.inl rfl
            · exact Or.inr (Or.inl rfl)
            · exact Or.inr (Or.inr rfl)
        · rcases inv8 with h8 | ⟨r, hr, h8⟩
          · exact Or.inr ⟨_,
              List.mem_append_right _ (List.mem_singleton_self _), h8⟩
          · exact Or.inr ⟨r, List.mem_append_left _ hr, h8⟩
  | succ n ih =>
    intro c s runs s2 runs2 inv1 inv2 inv3 inv4 inv5 inv6 inv7 inv8 h
    rw [List.range'_succ] at h
    simp only [code_run_array_loop] at h
    cases hdb : db c with
    | none =>
      rw [hdb] at h
      cases he : s.end_run runs with
      | error e =>
        simp only [he] at h
        exact Except.noConfusion h
      | ok runs2' =>
        simp only [he] at h
        have hclass : classify db c = none := by
          rw [classify, hdb]
        obtain ⟨A1, A2, A3, A4, A5, A6, A7, A8⟩ :=
          boundary_step db c s runs runs2' none hclass inv1 inv2 inv3 inv4 inv5
            inv6 inv8 he
        have inv7N : (s.new_run c none).max_length = 0 ∨
            2 ≤ (s.new_run c none).max_length := by
          rw [A7]
          exact inv7
        obtain ⟨B1, B2, B3, B4, B5⟩ :=
          ih (c + 1) (s.new_run c none) runs2' s2 runs2 A1 A2 A3 A4 A5 A6 inv7N
            A8 h
        exact ⟨fun cp hcp => B1 cp (by omega), B2, B3, B4, B5⟩
    | some v =>
      rw [hdb] at h
      cases hex : s.extend_run (CATEGORY_TO_GRAMMAR_RULE v.General_Category) with
      | mk flag s' =>
        cases flag with
        | false =>
          simp only [hex] at h
          have hs' : s' = s := extend_run_false _ _ _ hex
          rw [hs'] at h
          cases he : s.end_run runs with
          | error e =>
            simp only [he] at h
            exact Except.noConfusion h
          | ok runs2' =>
            simp only [he] at h
            have hclass :
                classify db c = CATEGORY_TO_GRAMMAR_RULE v.General_Category := by
              rw [classify, hdb]
            obtain ⟨A1, A2, A3, A4, A5, A6, A7, A8⟩ :=
              boundary_step db c s runs runs2' _ hclass inv1 inv2 inv3 inv4 inv5
                inv6 inv8 he
            have inv7N :
                (s.new_run c (CATEGORY_TO_GRAMMAR_RULE v.General_Category)).max_length
                    = 0 ∨
                2 ≤ (s.new_run c
                  (CATEGORY_TO_GRAMMAR_RULE v.General_Category)).max_length := by
              rw [A7]
              exact inv7
            obtain ⟨B1, B2, B3, B4, B5⟩ :=
              ih (c + 1) (s.new_run c (CATEGORY_TO_GRAMMAR_RULE v.General_Category))
                runs2' s2 runs2 A1 A2 A3 A4 A5 A6 inv7N A8 h
            exact ⟨fun cp hcp => B1 cp (by omega), B2, B3, B4, B5⟩
        | true =>
          simp only [hex] at h
          obtain ⟨cv, hcat, hmc, hlen_le, hs'⟩ := extend_run_true _ _ _ hex
          obtain ⟨hpos, hsum⟩ := inv2 cv hcat
          have hf : s'.first = s.first := by rw [hs']
          have hl : s'.length = s.length + 1 := by rw [hs']
          have hcats : s'.cat = s.cat := by rw [hs']
          have hm : s'.max_length = max s.max_length (s.length + 1) := by rw [hs']
          have inv1N : s'.cat = none → s'.length = 0 ∧ s'.first ≤ c + 1 := by
            intro h0
            rw [hcats, hcat] at h0
            exact Option.noConfusion h0
          have inv2N : ∀ cv', s'.cat = some cv' →
              0 < s'.length ∧ s'.first + s'.length = c + 1 := by
            intro cv' _
            rw [hl, hf]
            omega
          have inv3N : ∀ r ∈ runs, r.code_point + r.length ≤ s'.first := by
            intro r hr
            rw [hf]
            exact inv3 r hr
          have inv6N : ∀ cp, cp < c + 1 →
              pending_lookup s' runs cp = classify db cp := by
            intro cp hcp
            rcases Nat.lt_or_ge cp c with hlt | hge
            · have heq : pending_lookup s' runs cp = pending_lookup s runs cp := by
                rw [pending_lookup, pending_lookup]
                cases lookup_run runs cp with
                | some x => rfl
                | none =>
                  by_cases hin : s.first ≤ cp
                  · have hy1 : s'.first ≤ cp ∧ cp < s'.first + s'.length := by
                      rw [hf, hl]
                      omega
                    have hy2 : s.first ≤ cp ∧ cp < s.first + s.length := by
                      omega
                    rw [if_pos hy1, if_pos hy2, hcats]
                  · have hn1 : ¬(s'.first ≤ cp ∧ cp < s'.first + s'.length) := by
                      rw [hf]
                      omega
                    have hn2 : ¬(s.first ≤ cp ∧ cp < s.first + s.length) := by
                      omega
                    rw [if_neg hn1, if_neg hn2]
              rw [heq]
              exact inv6 cp hlt
            · have hcpc : cp = c := by omega
              subst hcpc
              have hnone : lookup_run runs cp = none := by
                refine lookup_run_none_of_le runs cp ?_
                intro r hr
                have := inv3 r hr
                omega
              rw [pending_lookup_eq_of_none s' runs cp hnone]
              have hyes : s'.first ≤ cp ∧ cp < s'.first + s'.length := by
                rw [hf, hl]
                omega
              rw [if_pos hyes, hcats, hcat]
              simp only [classify, hdb]
              exact hmc.symm
          have inv7N : s'.max_length = 0 ∨ 2 ≤ s'.max_length := by
            refine Or.inr ?_
            rw [hm]
            exact Nat.le_trans (by omega) (Nat.le_max_right _ _)
          have inv8N : s'.max_length ≤ s'.length ∨
              ∃ r ∈ runs, s'.max_length ≤ r.length := by
            rcases Nat.le_total s.max_length (s.length + 1) with hle | hge
            · refine Or.inl ?_
              rw [hm, hl]
              exact Nat.max_le.mpr ⟨hle, Nat.le_refl _⟩
            · rcases inv8 with h8 | ⟨r, hr, h8⟩
              · exact absurd h8 (by omega)
              · refine Or.inr ⟨r, hr, ?_⟩
                rw [hm, Nat.max_eq_left hge]
                exact h8
          obtain ⟨B1, B2, B3, B4, B5⟩ :=
            ih (c + 1) s' runs s2 runs2 inv1N inv2N inv3N inv4 inv5 inv6N inv7N
              inv8N h
          exact ⟨fun cp hcp => B1 cp (by omega), B2, B3, B4, B5⟩

/-- The master invariant instantiated at the start of the whole pass. -/
lemma code_run_array_master (db : DbDict) (s2 : CRAState)
    (runs2 : List OutputRow)
    (h : code_run_array_with_state db = .ok (s2, runs2)) :
    (∀ cp, cp ≤ MAX_CODE_POINT → lookup_run runs2 cp = classify db cp) ∧
    List.Pairwise (fun a b => a.code_point + a.length ≤ b.code_point) runs2 ∧
    (∀ r ∈ runs2, RowInBounds r) ∧
    (s2.max_length = 0 ∨ 2 ≤ s2.max_length) ∧
    (s2.max_length = 0 ∨ ∃ r ∈ runs2, s2.max_length ≤ r.length) := by
  rw [code_run_array_with_state, all_code_points, all_code_points_from_eq_range',
    Nat.sub_zero] at h
  obtain ⟨B1, B2, B3, B4, B5⟩ :=
    loop_master db (MAX_CODE_POINT + 1) 0 CRAState.init [] s2 runs2
      (fun _ => ⟨rfl, Nat.le_refl 0⟩)
      (fun cv hcv => Option.noConfusion hcv)
      (fun r hr => absurd hr (List.not_mem_nil r))
      List.Pairwise.nil
      (fun r hr => absurd hr (List.not_mem_nil r))
      (fun cp hcp => absurd hcp (Nat.not_lt_zero cp))
      (Or.inl rfl)
      (Or.inl (Nat.le_refl 0))
      h
  exact ⟨fun cp hcp => B1 cp (by omega), B2, B3, B4, B5⟩

lemma code_run_array_ok (db : DbDict) (rows : List OutputRow)
    (h : code_run_array db = .ok rows) :
    ∃ s, code_run_array_with_state db = .ok (s, rows) := by
  rw [code_run_array] at h
  cases hws : code_run_array_with_state db with
  | error e =>
    rw [hws] at h
    exact Except.noConfusion h
  | ok p =>
    obtain ⟨s, runs⟩ := p
    simp only [hws] at h
    injection h with h1
    exact ⟨s, by rw [h1]⟩

/-- Claim C5: for every input database, every run record emitted by
`code_run_array` satisfies 0 ≤ start ≤ 0x10FFFF (and the start fits the
21-bit code point field, since 0x10FFFF < 2^21), 1 ≤ length ≤ 511, and its
rule is one of the three defined `GrammarRule` values with a 2-bit code —
exactly the bounds `RowInBounds` spells out — so the emission-time
assertions accept every such record. -/
theorem c5_emitted_rows_in_bounds :
    ∀ (db : DbDict) (rows : List OutputRow),
      code_run_array db = .ok rows →
      ∀ r ∈ rows, RowInBounds r := by
  intro db rows h r hr
  obtain ⟨s, hws⟩ := code_run_array_ok db rows h
  exact (code_run_array_master db s rows hws).2.2.1 r hr

/-- Claim C6: classification fidelity.  For every input database on which
the pass succeeds and every code point up to 0x10FFFF, the rule of the run
record containing the code point — `none` when no record contains it —
equals the direct classifier verdict (`db.get`, then the category-to-rule
table; the override table has already been folded into the database by
`patch_special_code_points` before `code_run_array` runs). -/
theorem c6_classification_fidelity :
    ∀ (db : DbDict) (rows : List OutputRow),
      code_run_array db = .ok rows →
      ∀ cp, cp ≤ MAX_CODE_POINT → lookup_run rows cp = classify db cp := by
  intro db rows h cp hcp
  obtain ⟨s, hws⟩ := code_run_array_ok db rows h
  exact (code_run_array_master db s rows hws).1 cp hcp

lemma pairwise_le_unique :
    ∀ (rows : List OutputRow),
      List.Pairwise (fun a b => a.code_point + a.length ≤ b.code_point) rows →
      ∀ cp r1 r2, r1 ∈ rows → r2 ∈ rows →
        r1.code_point ≤ cp → cp < r1.code_point + r1.length →
        r2.code_point ≤ cp → cp < r2.code_point + r2.length → r1 = r2 := by
  intro rows
  induction rows with
  | nil =>
    intro _ cp r1 r2 h1
    exact absurd h1 (List.not_mem_nil _)
  | cons a rest ih =>
    intro hpw cp r1 r2 h1 h2 ha1 hb1 ha2 hb2
    obtain ⟨hhead, htail⟩ := List.pairwise_cons.mp hpw
    rcases List.mem_cons.mp h1 with rfl | h1m
    · rcases List.mem_cons.mp h2 with rfl | h2m
      · rfl
      · have := hhead r2 h2m
        omega
    · rcases List.mem_cons.mp h2 with rfl | h2m
      · have := hhead r1 h1m
        omega
      · exact ih htail cp r1 r2 h1m h2m ha1 hb1 ha2 hb2

/-- Claim C7: for every input database on which the pass succeeds, the
emitted run records are in strictly ascending `start` order, adjacent
records never overlap (`start + length ≤ next start`, which makes all the
intervals pairwise disjoint), and consequently every code point is covered
by at most one record. -/
theorem c7_rows_sorted_disjoint :
    ∀ (db : DbDict) (rows : List OutputRow),
      code_run_array db = .ok rows →
      List.Pairwise (fun a b => a.code_point < b.code_point) rows ∧
      List.Pairwise (fun a b => a.code_point + a.length ≤ b.code_point) rows ∧
      (∀ cp r1 r2, r1 ∈ rows → r2 ∈ rows →
        r1.code_point ≤ cp → cp < r1.code_point + r1.length →
        r2.code_point ≤ cp → cp < r2.code_point + r2.length → r1 = r2) := by
  intro db rows h
  obtain ⟨s, hws⟩ := code_run_array_ok db rows h
  obtain ⟨-, hpw, hbounds, -, -⟩ := code_run_array_master db s rows hws
  refine ⟨?_, hpw, pairwise_le_unique rows hpw⟩
  refine List.Pairwise.imp_of_mem ?_ hpw
  intro a b ha _ hab
  have h1 := (hbounds a ha).2.2.1
  omega

/-- Claim C10: `CRAState.max_run` reports only lengths reached through
`extend_run`.  Whenever the pass succeeds and every emitted run record has
length 1 (runs were opened by `new_run` but never extended), the final
state's `max_run` is 0 — not 1 — even though length-1 records were
emitted.  (The proof factors through the invariant that `max_length` is
never 1 and, when nonzero, is witnessed by some emitted record's length.) -/
theorem c10_max_run_counts_extensions_only :
    ∀ (db : DbDict) (s : CRAState) (rows : List OutputRow),
      code_run_array_with_state db = .ok (s, rows) →
      (∀ r ∈ rows, r.length = 1) →
      s.max_run = 0 := by
  intro db s rows h hall
  obtain ⟨-, -, -, h4, h5⟩ := code_run_array_master db s rows h
  rw [CRAState.max_run]
  rcases h5 with h5 | ⟨r, hr, h5⟩
  · exact h5
  · have := hall r hr
    rcases h4 with h4 | h4
    · exact h4
    · omega

/-- A two-code-point example database: U+0000 is an uppercase letter, U+0001
a non-spacing mark, and nothing else is assigned. -/
def example_db2 : DbDict := fun cp =>
  if cp = 0 then some ⟨"EXAMPLE LETTER", .Uppercase_Letter⟩
  else if cp = 1 then some ⟨"EXAMPLE MARK", .Nonspacing_Mark⟩
  else none

/-- The two run records `code_run_array` emits for `example_db2`. -/
def example_rows : List OutputRow :=
  [{ code_point := 0, length := 1, category := .identifier_start },
   { code_point := 1, length := 1, category := .identifier_part }]

/-- The final encoder state after the full pass over `example_db2`. -/
def example_final_state : CRAState :=
  { first := MAX_CODE_POINT, length := 0, max_length := 0, cat := none }

lemma example_db2_step0 (l : List Nat) :
    code_run_array_loop example_db2 (0 :: l) CRAState.init [] =
      code_run_array_loop example_db2 l
        { first := 0, length := 1, max_length := 0,
          cat := some .identifier_start } [] := by
  simp [code_run_array_loop, example_db2, CRAState.extend_run, CRAState.end_run,
    CRAState.new_run, CRAState.init, CATEGORY_TO_GRAMMAR_RULE]

lemma example_db2_step1 (l : List Nat) :
    code_run_array_loop example_db2 (1 :: l)
        { first := 0, length := 1, max_length := 0,
          cat := some .identifier_start } [] =
      code_run_array_loop example_db2 l
        { first := 1, length := 1, max_length := 0,
          cat := some .identifier_part }
        [{ code_point := 0, length := 1, category := .identifier_start }] := by
  simp [code_run_array_loop, example_db2, CRAState.extend_run, CRAState.end_run,
    CRAState.new_run, CATEGORY_TO_GRAMMAR_RULE, MAX_RUN_LENGTH, RUN_LENGTH_BITS,
    MAX_CODE_POINT, CODE_POINT_BITS, MAX_RULE, RULE_BITS, GrammarRule.value]

lemma example_db2_step2 (l : List Nat) :
    code_run_array_loop example_db2 (2 :: l)
        { first := 1, length := 1, max_length := 0,
          cat := some .identifier_part }
        [{ code_point := 0, length := 1, category := .identifier_start }] =
      code_run_array_loop example_db2 l
        { first := 2, length := 0, max_length := 0, cat := none }
        example_rows := by
  simp [code_run_array_loop, example_db2, CRAState.extend_run, CRAState.end_run,
    CRAState.new_run, CATEGORY_TO_GRAMMAR_RULE, MAX_RUN_LENGTH, RUN_LENGTH_BITS,
    MAX_CODE_POINT, CODE_POINT_BITS, MAX_RULE, RULE_BITS, GrammarRule.value,
    example_rows]

lemma example_db2_eval :
    code_run_array_with_state example_db2 =
      .ok (example_final_state, example_rows) := by
  rw [code_run_array_with_state, all_code_points, all_code_points_from_eq_range',
    Nat.sub_zero]
  rw [range'_eq_cons 0 _ (by decide)]
  rw [range'_eq_cons 1 _ (by decide)]
  rw [range'_eq_cons 2 _ (by decide)]
  rw [example_db2_step0, example_db2_step1, example_db2_step2]
  have hdb3 : ∀ cp, 2 + 1 ≤ cp → example_db2 cp = none := by
    intro cp hcp
    have h0 : ¬(cp = 0) := by omega
    have h1 : ¬(cp = 1) := by omega
    simp only [example_db2, if_neg h0, if_neg h1]
  refine (loop_none_tail example_db2 _ _ _ _ hdb3 rfl).trans ?_
  decide

lemma code_run_array_example_db2 :
    code_run_array example_db2 = .ok example_rows := by
  rw [code_run_array, example_db2_eval]

/-- Claim C5 witness: the hypotheses discharged at `example_db2` and its
first emitted record. -/
theorem c5_emitted_rows_in_bounds_witness :
    RowInBounds { code_point := 0, length := 1,
                  category := GrammarRule.identifier_start } :=
  c5_emitted_rows_in_bounds example_db2 example_rows code_run_array_example_db2
    _ (by decide)

/-- Claim C6 witness: fidelity evaluated at `example_db2` and U+0001. -/
theorem c6_classification_fidelity_witness :
    lookup_run example_rows 1 = classify example_db2 1 :=
  c6_classification_fidelity example_db2 example_rows code_run_array_example_db2
    1 (by decide)

/-- Claim C7 witness: the ordering and disjointness facts at `example_db2`.
-/
theorem c7_rows_sorted_disjoint_witness :
    List.Pairwise (fun a b => a.code_point < b.code_point) example_rows ∧
    List.Pairwise (fun a b => a.code_point + a.length ≤ b.code_point)
      example_rows ∧
    (∀ cp r1 r2, r1 ∈ example_rows → r2 ∈ example_rows →
      r1.code_point ≤ cp → cp < r1.code_point + r1.length →
      r2.code_point ≤ cp → cp < r2.code_point + r2.length → r1 = r2) :=
  c7_rows_sorted_disjoint example_db2 example_rows code_run_array_example_db2

/-- Claim C10 witness: on `example_db2` both emitted records have length 1,
and the final state's `max_run` is 0. -/
theorem c10_max_run_witness : CRAState.max_run example_final_state = 0 :=
  c10_max_run_counts_extensions_only example_db2 example_final_state
    example_rows example_db2_eval (by decide)

end Peejay
